import Mathlib

/-!
# Net connectivity of a cell: `connect`, `net_connects_to`, `dump_cell_nets`

A shallow embedding of the net builder of `src/main.c` over the data model of
`src/cell.h`, and the properties of the net partition it maintains.

Conventions of the embedding.

* A C pointer is a `Ptr`: `none` is `NULL`, `some n` is the address `n`.
  Pointer comparison is equality of addresses.
* `array_t` is a list in element order.
* `cell->nets` holds pointers to separately allocated nets.  The list
  `phx_cell.nets` holds the pointed-to nets in array order, and a pointer to a
  net of the cell (`net_a`, `net_b` in `connect`) is the position of that net in
  the list; a write through such a pointer rewrites the net at that position.
* A failed `assert` aborts the program.  A function that can abort yields an
  `Outcome`, which records the cell and the text written to `stdout` at the
  moment of the return or of the abort.
-/

namespace Phalanx

/-- A C pointer: `none` is `NULL`. -/
abbrev Ptr := Option Nat

/-- The terminal `struct phx_terminal` (`net_conn_t` in `main.c`). -/
structure phx_terminal where
  inst : Ptr
  pin : Ptr
deriving DecidableEq, Repr

/-- The net `struct phx_net` (`net_t` in `main.c`).  The fields `capacitance`
(a `double`) and `arcs` are neither read nor written by the functions embedded
here and are left out. -/
structure phx_net where
  invalid : Nat
  cell : Ptr
  name : Option String
  conns : List phx_terminal
  is_exposed : Int
deriving DecidableEq, Repr

/-- The cell `struct phx_cell` (`cell_t` in `main.c`), restricted to its
invalidation bits and its nets; the other fields are not touched by the
functions embedded here. -/
structure phx_cell where
  invalid : Nat
  nets : List phx_net
deriving DecidableEq, Repr

/-- Result of a call that may fail an `assert`: the cell and the text written
to `stdout` when the call returned, or when it aborted. -/
inductive Outcome where
  | returned (cell : phx_cell) (out : String)
  | aborted (cell : phx_cell) (out : String)
deriving DecidableEq, Repr

/-- Modelled from the spec: `array_init` of `util.h` is not among the sources;
the spec's collections are ordered sequences, and a freshly initialised one is
empty. -/
def array_init {α : Type} : List α := []

/-- Modelled from the spec: `array_add` of `util.h` is not among the sources;
the spec's collections keep insertion order and `connect` "append[s] the
missing terminal", so adding puts the element at the end. -/
def array_add {α : Type} (self : List α) (item : α) : List α := self ++ [item]

/-- The loop of `net_connects_to` over `net->conns`: `true` (C `1`) at the
first connection whose pin and instance pointers both equal the arguments,
`false` (C `0`) when the loop runs out. -/
def net_connects_to_loop : List phx_terminal → Ptr → Ptr → Bool
  | [], _, _ => false
  | conn :: rest, pin, inst =>
    if conn.pin = pin ∧ conn.inst = inst then true
    else net_connects_to_loop rest pin inst

/-- The function `net_connects_to(net, pin, inst)` of `main.c`; `none` is the
failure of `assert(net && pin)` (the net is a value here, hence non-null). -/
def net_connects_to (net : phx_net) (pin inst : Ptr) : Option Bool :=
  if pin = none then none
  else some (net_connects_to_loop net.conns pin inst)

/-- The scanning loop of `connect` from array position `z` on, with the current
values of `net_a` and `net_b`.  `none` is the failure of `assert(!net_a)`, of
`assert(!net_b)`, or of the assertion inside `net_connects_to`; otherwise the
final `(net_a, net_b)`. -/
def connect_scan (pin_a inst_a pin_b inst_b : Ptr) :
    List phx_net → Nat → Ptr → Ptr → Option (Ptr × Ptr)
  | [], _, net_a, net_b => some (net_a, net_b)
  | net :: rest, z, net_a, net_b =>
    match net_connects_to net pin_a inst_a with
    | none => none
    | some ca =>
      if ca = true ∧ net_a ≠ none then none
      else
        match net_connects_to net pin_b inst_b with
        | none => none
        | some cb =>
          if cb = true ∧ net_b ≠ none then none
          else
            connect_scan pin_a inst_a pin_b inst_b rest (z + 1)
              (if ca then some z else net_a) (if cb then some z else net_b)

/-- The write `array_add(&net->conns, &c)` through the pointer `net` to the net
at position `i` of the cell's net array. -/
def net_conns_add : List phx_net → Nat → phx_terminal → List phx_net
  | [], _, _ => []
  | net :: rest, 0, c => { net with conns := array_add net.conns c } :: rest
  | net :: rest, i + 1, c => net :: net_conns_add rest i c

/-- The net that `connect` allocates: `calloc` zeroes every field, then
`array_init` and two `array_add` fill `conns`. -/
def new_net (ca cb : phx_terminal) : phx_net :=
  { invalid := 0, cell := none, name := none,
    conns := array_add (array_add array_init ca) cb, is_exposed := 0 }

/-- The function `connect(cell, pin_a, inst_a, pin_b, inst_b)` of `main.c`.
The argument `cell` is the cell a non-null `cell` pointer points to. -/
def connect (cell : phx_cell) (pin_a inst_a pin_b inst_b : Ptr) : Outcome :=
  if pin_a = none ∨ pin_b = none then .aborted cell ""
  else
    match connect_scan pin_a inst_a pin_b inst_b cell.nets 0 none none with
    | none => .aborted cell ""
    | some (net_a, net_b) =>
      if net_a ≠ none ∧ net_a = net_b then .returned cell ""
      else
        match net_a, net_b with
        | none, none =>
          .returned
            { cell with
              nets := (array_add cell.nets (new_net ⟨inst_a, pin_a⟩ ⟨inst_b, pin_b⟩)) }
            "creating new net\n"
        | some _, some _ => .aborted cell ""
        | some i, none =>
          .returned { cell with nets := net_conns_add cell.nets i ⟨inst_b, pin_b⟩ } ""
        | none, some j =>
          .returned { cell with nets := net_conns_add cell.nets j ⟨inst_a, pin_a⟩ } ""

/-- The inner loop of `dump_cell_nets` over `net->conns`, appending to the text
`out` written so far.  `pin_name p` and `inst_name i` are the strings
`p->name` and `i->name` held in memory; `none` is the dereference of a null
`conn->pin`. -/
def dump_conns (pin_name inst_name : Nat → String) :
    List phx_terminal → String → Option String
  | [], out => some out
  | conn :: rest, out =>
    match conn.pin with
    | none => none
    | some p =>
      match conn.inst with
      | some i =>
        dump_conns pin_name inst_name rest
          (out ++ (" " ++ inst_name i ++ "." ++ pin_name p))
      | none =>
        dump_conns pin_name inst_name rest (out ++ (" " ++ pin_name p))

/-- The outer loop of `dump_cell_nets` over `cell->nets`, appending to the text
`out` written so far. -/
def dump_nets (pin_name inst_name : Nat → String) :
    List phx_net → String → Option String
  | [], out => some out
  | net :: rest, out =>
    match dump_conns pin_name inst_name net.conns
        (out ++ ("net " ++ (match net.name with | some s => s | none => "<anon>") ++ " \x7b")) with
    | none => none
    | some out1 => dump_nets pin_name inst_name rest (out1 ++ " \x7d\n")

/-- The function `dump_cell_nets(cell, out)` of `main.c`, as the text it writes
to a stream that is empty at the call. -/
def dump_cell_nets (pin_name inst_name : Nat → String) (cell : phx_cell) : Option String :=
  dump_nets pin_name inst_name cell.nets ""

/-! ## Vocabulary of the properties -/

/-- Whether terminal `t` is among the connections of `net`. -/
def net_has (t : phx_terminal) (net : phx_net) : Bool := decide (t ∈ net.conns)

/-- The number of nets of the cell that contain terminal `t`. -/
def nets_containing (cell : phx_cell) (t : phx_terminal) : Nat :=
  cell.nets.countP (net_has t)

/-- The net partition invariant: each terminal is in at most one net. -/
def Partition (cell : phx_cell) : Prop :=
  ∀ t : phx_terminal, nets_containing cell t ≤ 1

/-- No net of the cell lists the same terminal twice. -/
def NoDuplicates (cell : phx_cell) : Prop :=
  ∀ net ∈ cell.nets, net.conns.Nodup

/-- A sequence of `connect` calls, each on the cell the previous one left;
`none` as soon as one call aborts. -/
def connect_calls (cell : phx_cell) : List (phx_terminal × phx_terminal) → Option phx_cell
  | [] => some cell
  | (a, b) :: rest =>
    match connect cell a.pin a.inst b.pin b.inst with
    | .returned cell1 _ => connect_calls cell1 rest
    | .aborted _ _ => none

/-- The text of one terminal in the net listing, in the spec's words:
`instance.pin`, or the bare pin name when the terminal has no instance.  (A
record without a pin is not a terminal and has no text.) -/
def terminal_text (pin_name inst_name : Nat → String) (t : phx_terminal) : String :=
  match t.inst, t.pin with
  | some i, some p => inst_name i ++ "." ++ pin_name p
  | none, some p => pin_name p
  | _, none => ""

/-- The line of one net in the net listing, in the spec's words. -/
def net_line (pin_name inst_name : Nat → String) (net : phx_net) : String :=
  "net " ++ net.name.getD "<anon>" ++ " \x7b"
    ++ String.join (net.conns.map (fun t => " " ++ terminal_text pin_name inst_name t))
    ++ " \x7d\n"

/-- The net listing of a cell, in the spec's words: one line per net, in net
order. -/
def net_listing (pin_name inst_name : Nat → String) (cell : phx_cell) : String :=
  String.join (cell.nets.map (net_line pin_name inst_name))

/-- The thirteen `connect` calls of `main` ("Add the internal connections of
the cell"), in source order, on the cell `cell`.  `cell_find_pin` of `cell.h`
is not among the sources and is a parameter: `cell_find_pin c name` is the
pointer it returns for the cell at address `c`.  `cell_p` and `AN2M0R` are the
addresses of the new cell and of the instantiated cell, `i0`, `i1`, `i2` the
pointers `new_inst` returned; `pA` ... `pVSS` are looked up on `cell_p` as in
`main`.  `none` as soon as one call aborts. -/
def main_connects (cell_find_pin : Nat → String → Ptr) (cell_p AN2M0R : Nat)
    (i0 i1 i2 : Ptr) (cell : phx_cell) : Option phx_cell :=
  let pA := cell_find_pin cell_p "A"
  let pB := cell_find_pin cell_p "B"
  let pC := cell_find_pin cell_p "C"
  let pD := cell_find_pin cell_p "D"
  let pZ := cell_find_pin cell_p "Z"
  let pVDD := cell_find_pin cell_p "VDD"
  let pVSS := cell_find_pin cell_p "VSS"
  connect_calls cell
    [ (⟨none, pVDD⟩, ⟨i0, cell_find_pin AN2M0R "VDD"⟩),
      (⟨none, pVDD⟩, ⟨i1, cell_find_pin AN2M0R "VDD"⟩),
      (⟨none, pVDD⟩, ⟨i2, cell_find_pin AN2M0R "VDD"⟩),
      (⟨none, pVSS⟩, ⟨i0, cell_find_pin AN2M0R "VSS"⟩),
      (⟨none, pVSS⟩, ⟨i1, cell_find_pin AN2M0R "VSS"⟩),
      (⟨none, pVSS⟩, ⟨i2, cell_find_pin AN2M0R "VSS"⟩),
      (⟨none, pA⟩, ⟨i0, cell_find_pin AN2M0R "A"⟩),
      (⟨none, pB⟩, ⟨i0, cell_find_pin AN2M0R "B"⟩),
      (⟨none, pC⟩, ⟨i1, cell_find_pin AN2M0R "A"⟩),
      (⟨none, pD⟩, ⟨i1, cell_find_pin AN2M0R "B"⟩),
      (⟨none, pZ⟩, ⟨i2, cell_find_pin AN2M0R "Z"⟩),
      (⟨i0, cell_find_pin AN2M0R "Z"⟩, ⟨i2, cell_find_pin AN2M0R "A"⟩),
      (⟨i1, cell_find_pin AN2M0R "Z"⟩, ⟨i2, cell_find_pin AN2M0R "B"⟩) ]

/-- A code of a name as a number, different for different names. -/
def name_code : List Char → Nat
  | [] => 0
  | c :: rest => Nat.pair c.toNat (name_code rest) + 1

/-- An example of a pin lookup: the pin of cell `c` named `name` sits at the
address that pairs `c` with the code of `name`. -/
def pin_address (c : Nat) (name : String) : Ptr :=
  some (Nat.pair c (name_code name.data))

end Phalanx

namespace Phalanx

/-! ## The scan of `connect` -/

theorem net_connects_to_loop_eq (conns : List phx_terminal) (pin inst : Ptr) :
    net_connects_to_loop conns pin inst = decide ((⟨inst, pin⟩ : phx_terminal) ∈ conns) := by
  induction conns with
  | nil => simp [net_connects_to_loop]
  | cons c rest ih =>
    obtain ⟨ci, cp⟩ := c
    by_cases h : cp = pin ∧ ci = inst
    · obtain ⟨rfl, rfl⟩ := h
      simp [net_connects_to_loop]
    · have hne : (⟨inst, pin⟩ : phx_terminal) ≠ ⟨ci, cp⟩ := by
        intro e
        injection e with e1 e2
        exact h ⟨e2.symm, e1.symm⟩
      simp [net_connects_to_loop, h, ih, hne]

theorem net_connects_to_eq (net : phx_net) (pin inst : Ptr) (hp : pin ≠ none) :
    net_connects_to net pin inst = some (net_has ⟨inst, pin⟩ net) := by
  simp [net_connects_to, hp, net_connects_to_loop_eq, net_has]

/-- The scan aborts exactly when a terminal is met a second time, and otherwise
returns, for each terminal, the position of the one net that holds it. -/
theorem connect_scan_eq (pin_a inst_a pin_b inst_b : Ptr)
    (ha : pin_a ≠ none) (hb : pin_b ≠ none) (l : List phx_net) :
    ∀ (z : Nat) (net_a net_b : Ptr),
      connect_scan pin_a inst_a pin_b inst_b l z net_a net_b =
        if (net_a ≠ none ∧ 0 < l.countP (net_has ⟨inst_a, pin_a⟩))
            ∨ 1 < l.countP (net_has ⟨inst_a, pin_a⟩)
            ∨ (net_b ≠ none ∧ 0 < l.countP (net_has ⟨inst_b, pin_b⟩))
            ∨ 1 < l.countP (net_has ⟨inst_b, pin_b⟩) then none
        else some
          (if l.countP (net_has ⟨inst_a, pin_a⟩) = 0 then net_a
            else some (z + l.findIdx (net_has ⟨inst_a, pin_a⟩)),
           if l.countP (net_has ⟨inst_b, pin_b⟩) = 0 then net_b
            else some (z + l.findIdx (net_has ⟨inst_b, pin_b⟩))) := by
  induction l with
  | nil => intro z net_a net_b; simp [connect_scan]
  | cons net rest ih =>
    intro z net_a net_b
    simp only [connect_scan, net_connects_to_eq _ _ _ ha, net_connects_to_eq _ _ _ hb, ih]
    have e1 : ∀ f : Nat, z + 1 + f = z + (f + 1) := fun f => by omega
    simp only [List.countP_cons, List.findIdx_cons, e1]
    generalize List.countP (net_has ⟨inst_a, pin_a⟩) rest = cP
    generalize List.countP (net_has ⟨inst_b, pin_b⟩) rest = cQ
    generalize List.findIdx (net_has ⟨inst_a, pin_a⟩) rest = fP
    generalize List.findIdx (net_has ⟨inst_b, pin_b⟩) rest = fQ
    cases hP : net_has ⟨inst_a, pin_a⟩ net <;> cases hQ : net_has ⟨inst_b, pin_b⟩ net <;>
      cases net_a <;> cases net_b <;>
      simp only [cond_true, cond_false, if_true, if_false, ne_eq, not_true_eq_false,
        not_false_eq_true, true_and, false_and, and_true, and_false, true_or, false_or,
        or_true, or_false, Bool.false_eq_true, reduceCtorEq, Nat.add_zero, Nat.zero_add] <;>
      rcases cP with _ | _ | cP <;> rcases cQ with _ | _ | cQ <;> simp

/-- The behaviour of `connect` on non-null pins, by the number of nets that
hold each terminal and the position of the first such net. -/
theorem connect_eq (cell : phx_cell) (pin_a inst_a pin_b inst_b : Ptr)
    (ha : pin_a ≠ none) (hb : pin_b ≠ none) :
    connect cell pin_a inst_a pin_b inst_b =
      if 1 < nets_containing cell ⟨inst_a, pin_a⟩ ∨ 1 < nets_containing cell ⟨inst_b, pin_b⟩ then
        .aborted cell ""
      else if nets_containing cell ⟨inst_a, pin_a⟩ = 0 then
        if nets_containing cell ⟨inst_b, pin_b⟩ = 0 then
          .returned { cell with nets := cell.nets ++ [new_net ⟨inst_a, pin_a⟩ ⟨inst_b, pin_b⟩] }
            "creating new net\n"
        else
          .returned { cell with nets := (net_conns_add cell.nets
            (cell.nets.findIdx (net_has ⟨inst_b, pin_b⟩)) ⟨inst_a, pin_a⟩) } ""
      else if nets_containing cell ⟨inst_b, pin_b⟩ = 0 then
        .returned { cell with nets := (net_conns_add cell.nets
          (cell.nets.findIdx (net_has ⟨inst_a, pin_a⟩)) ⟨inst_b, pin_b⟩) } ""
      else if cell.nets.findIdx (net_has ⟨inst_a, pin_a⟩)
          = cell.nets.findIdx (net_has ⟨inst_b, pin_b⟩) then
        .returned cell ""
      else .aborted cell "" := by
  unfold connect nets_containing
  rw [connect_scan_eq _ _ _ _ ha hb]
  generalize List.countP (net_has ⟨inst_a, pin_a⟩) cell.nets = cP
  generalize List.countP (net_has ⟨inst_b, pin_b⟩) cell.nets = cQ
  generalize List.findIdx (net_has ⟨inst_a, pin_a⟩) cell.nets = fP
  generalize List.findIdx (net_has ⟨inst_b, pin_b⟩) cell.nets = fQ
  rcases cP with _ | _ | cP <;> rcases cQ with _ | _ | cQ <;>
    simp [ha, hb, array_add]

/-! ## Counting and finding in a list -/

theorem findIdx_spec {α : Type} (P : α → Bool) (l : List α) (h : 0 < l.countP P) :
    ∃ n, l[l.findIdx P]? = some n ∧ P n = true := by
  induction l with
  | nil => simp at h
  | cons x rest ih =>
    cases hx : P x
    · have h2 : 0 < rest.countP P := by
        simpa [List.countP_cons, hx] using h
      obtain ⟨n, hn, hp⟩ := ih h2
      exact ⟨n, by simpa [List.findIdx_cons, hx] using hn, hp⟩
    · exact ⟨x, by simp [List.findIdx_cons, hx], hx⟩

theorem findIdx_unique {α : Type} (P : α → Bool) (l : List α) :
    ∀ (i : Nat) (n : α), l.countP P ≤ 1 → l[i]? = some n → P n = true → l.findIdx P = i := by
  induction l with
  | nil => intro i n _ h; simp at h
  | cons x rest ih =>
    intro i n hc hi hp
    cases hx : P x
    · cases i with
      | zero =>
        simp at hi
        subst hi
        simp [hx] at hp
      | succ k =>
        have hc2 : rest.countP P ≤ 1 := by
          simpa [List.countP_cons, hx] using hc
        have := ih k n hc2 (by simpa using hi) hp
        simp [List.findIdx_cons, hx, this]
    · cases i with
      | zero => simp [List.findIdx_cons, hx]
      | succ k =>
        have hi2 : rest[k]? = some n := by simpa using hi
        have hmem : n ∈ rest := List.getElem?_mem hi2
        have h0 : 0 < rest.countP P := List.countP_pos_iff.mpr ⟨n, hmem, hp⟩
        have hc2 : rest.countP P + 1 ≤ 1 := by
          simpa [List.countP_cons, hx] using hc
        omega

/-! ## The write through a net pointer -/

theorem net_conns_add_length (l : List phx_net) (c : phx_terminal) :
    ∀ i : Nat, (net_conns_add l i c).length = l.length := by
  induction l with
  | nil => intro i; simp [net_conns_add]
  | cons x rest ih =>
    intro i
    cases i with
    | zero => simp [net_conns_add]
    | succ k => simp [net_conns_add, ih]

theorem net_conns_add_getElem?_self (l : List phx_net) (c : phx_terminal) :
    ∀ (i : Nat) (n : phx_net), l[i]? = some n →
      (net_conns_add l i c)[i]? = some { n with conns := n.conns ++ [c] } := by
  induction l with
  | nil => intro i n h; simp at h
  | cons x rest ih =>
    intro i n h
    cases i with
    | zero =>
      simp at h
      subst h
      simp [net_conns_add, array_add]
    | succ k =>
      have h2 : rest[k]? = some n := by simpa using h
      simpa [net_conns_add] using ih k n h2

theorem net_conns_add_getElem?_ne (l : List phx_net) (c : phx_terminal) :
    ∀ (i j : Nat), j ≠ i → (net_conns_add l i c)[j]? = l[j]? := by
  induction l with
  | nil => intro i j _; simp [net_conns_add]
  | cons x rest ih =>
    intro i j hne
    cases i with
    | zero =>
      cases j with
      | zero => exact absurd rfl hne
      | succ m => simp [net_conns_add]
    | succ k =>
      cases j with
      | zero => simp [net_conns_add]
      | succ m =>
        have : m ≠ k := fun e => hne (by rw [e])
        simpa [net_conns_add] using ih k m this

theorem net_has_add_ne (t c : phx_terminal) (htc : t ≠ c) (x : phx_net) :
    net_has t { x with conns := array_add x.conns c } = net_has t x := by
  simp [net_has, array_add, htc]

theorem countP_add_ne (t c : phx_terminal) (htc : t ≠ c) (l : List phx_net) :
    ∀ i : Nat, (net_conns_add l i c).countP (net_has t) = l.countP (net_has t) := by
  induction l with
  | nil => intro i; simp [net_conns_add]
  | cons x rest ih =>
    intro i
    cases i with
    | zero => simp [net_conns_add, List.countP_cons, net_has_add_ne t c htc]
    | succ k => simp [net_conns_add, List.countP_cons, ih]

theorem findIdx_add_ne (t c : phx_terminal) (htc : t ≠ c) (l : List phx_net) :
    ∀ i : Nat, (net_conns_add l i c).findIdx (net_has t) = l.findIdx (net_has t) := by
  induction l with
  | nil => intro i; simp [net_conns_add]
  | cons x rest ih =>
    intro i
    cases i with
    | zero => simp [net_conns_add, List.findIdx_cons, net_has_add_ne t c htc]
    | succ k => simp [net_conns_add, List.findIdx_cons, ih]

theorem countP_add_self (c : phx_terminal) (l : List phx_net) :
    ∀ i : Nat, l.countP (net_has c) = 0 → i < l.length →
      (net_conns_add l i c).countP (net_has c) = 1 := by
  induction l with
  | nil => intro i _ h; simp at h
  | cons x rest ih =>
    intro i h0 hi
    have hx : net_has c x = false := by
      cases hx : net_has c x
      · rfl
      · simp [List.countP_cons, hx] at h0
    have hr : rest.countP (net_has c) = 0 := by
      simpa [List.countP_cons, hx] using h0
    cases i with
    | zero =>
      have : net_has c { x with conns := array_add x.conns c } = true := by
        simp [net_has, array_add]
      simp [net_conns_add, List.countP_cons, this, hr]
    | succ k =>
      have hk : k < rest.length := by simpa using hi
      simp [net_conns_add, List.countP_cons, hx, ih k hr hk]

theorem findIdx_add_self (c : phx_terminal) (l : List phx_net) :
    ∀ i : Nat, l.countP (net_has c) = 0 → i < l.length →
      (net_conns_add l i c).findIdx (net_has c) = i := by
  induction l with
  | nil => intro i _ h; simp at h
  | cons x rest ih =>
    intro i h0 hi
    have hx : net_has c x = false := by
      cases hx : net_has c x
      · rfl
      · simp [List.countP_cons, hx] at h0
    have hr : rest.countP (net_has c) = 0 := by
      simpa [List.countP_cons, hx] using h0
    cases i with
    | zero =>
      have : net_has c { x with conns := array_add x.conns c } = true := by
        simp [net_has, array_add]
      simp [net_conns_add, List.findIdx_cons, this]
    | succ k =>
      have hk : k < rest.length := by simpa using hi
      simp [net_conns_add, List.findIdx_cons, hx, ih k hr hk]

theorem findIdx_lt_of_countP_pos {α : Type} (P : α → Bool) (l : List α) (h : 0 < l.countP P) :
    l.findIdx P < l.length := by
  obtain ⟨n, hn, _⟩ := findIdx_spec P l h
  by_contra hlt
  have : l[l.findIdx P]? = none := List.getElem?_eq_none (by omega)
  rw [this] at hn
  cases hn

theorem findIdx_append_singleton {α : Type} (P : α → Bool) (l : List α) (x : α)
    (h0 : l.countP P = 0) (hx : P x = true) : (l ++ [x]).findIdx P = l.length := by
  induction l with
  | nil => simp [List.findIdx_cons, hx]
  | cons y rest ih =>
    have hy : P y = false := by
      cases hy : P y
      · rfl
      · simp [List.countP_cons, hy] at h0
    have hr : rest.countP P = 0 := by
      simpa [List.countP_cons, hy] using h0
    simp [List.findIdx_cons, hy, ih hr]

/-! ## Steps of `connect` -/

theorem connect_returned_pins (cell cell1 : phx_cell) (pin_a inst_a pin_b inst_b : Ptr)
    (out : String) (h : connect cell pin_a inst_a pin_b inst_b = .returned cell1 out) :
    pin_a ≠ none ∧ pin_b ≠ none := by
  by_contra hn
  have hor : pin_a = none ∨ pin_b = none := by
    by_cases h1 : pin_a = none
    · exact Or.inl h1
    · by_cases h2 : pin_b = none
      · exact Or.inr h2
      · exact absurd ⟨h1, h2⟩ hn
  simp [connect, hor] at h

/-- The four ways in which `connect` returns. -/
theorem connect_returned_cases (cell cell1 : phx_cell) (a b : phx_terminal) (out : String)
    (h : connect cell a.pin a.inst b.pin b.inst = .returned cell1 out) :
    (nets_containing cell a = 1 ∧ nets_containing cell b = 1
        ∧ cell.nets.findIdx (net_has a) = cell.nets.findIdx (net_has b)
        ∧ cell1 = cell ∧ out = "")
    ∨ (nets_containing cell a = 0 ∧ nets_containing cell b = 0
        ∧ cell1 = { cell with nets := cell.nets ++ [new_net a b] }
        ∧ out = "creating new net\n")
    ∨ (nets_containing cell a = 1 ∧ nets_containing cell b = 0
        ∧ cell1 = { cell with nets := net_conns_add cell.nets (cell.nets.findIdx (net_has a)) b }
        ∧ out = "")
    ∨ (nets_containing cell a = 0 ∧ nets_containing cell b = 1
        ∧ cell1 = { cell with nets := net_conns_add cell.nets (cell.nets.findIdx (net_has b)) a }
        ∧ out = "") := by
  obtain ⟨ha, hb⟩ := connect_returned_pins _ _ _ _ _ _ _ h
  rw [connect_eq _ _ _ _ _ ha hb] at h
  obtain ⟨ai, ap⟩ := a
  obtain ⟨bi, bp⟩ := b
  simp only at h ha hb ⊢
  split_ifs at h with h1 h2 h3 h4 h5
  · injection h with e1 e2
    exact Or.inr (Or.inl ⟨h2, h3, e1.symm, e2.symm⟩)
  · injection h with e1 e2
    exact Or.inr (Or.inr (Or.inr ⟨h2, by omega, e1.symm, e2.symm⟩))
  · injection h with e1 e2
    exact Or.inr (Or.inr (Or.inl ⟨by omega, h4, e1.symm, e2.symm⟩))
  · injection h with e1 e2
    exact Or.inl ⟨by omega, by omega, h5, e1.symm, e2.symm⟩

theorem partition_step (cell cell1 : phx_cell) (a b : phx_terminal) (out : String)
    (hp : Partition cell)
    (h : connect cell a.pin a.inst b.pin b.inst = .returned cell1 out) : Partition cell1 := by
  intro t
  rcases connect_returned_cases cell cell1 a b out h with
    ⟨_, _, _, rfl, _⟩ | ⟨ha0, hb0, rfl, _⟩ | ⟨ha1, hb0, rfl, _⟩ | ⟨ha0, hb1, rfl, _⟩
  · exact hp t
  · have ht := hp t
    unfold nets_containing at *
    simp only [List.countP_append, List.countP_cons, List.countP_nil]
    by_cases hta : t = a
    · subst hta; split <;> omega
    · by_cases htb : t = b
      · subst htb; split <;> omega
      · have : net_has t (new_net a b) = false := by
          simp [net_has, new_net, array_add, array_init, hta, htb]
        simp [this]; exact ht
  · have ht := hp t
    unfold nets_containing at *
    by_cases htb : t = b
    · subst htb
      have hlt := findIdx_lt_of_countP_pos (net_has a) cell.nets (by omega)
      simp only
      rw [countP_add_self t cell.nets _ hb0 hlt]
    · simp only
      rw [countP_add_ne t b htb]; exact ht
  · have ht := hp t
    unfold nets_containing at *
    by_cases hta : t = a
    · subst hta
      have hlt := findIdx_lt_of_countP_pos (net_has b) cell.nets (by omega)
      simp only
      rw [countP_add_self t cell.nets _ ha0 hlt]
    · simp only
      rw [countP_add_ne t a hta]; exact ht

theorem partition_calls (calls : List (phx_terminal × phx_terminal)) :
    ∀ cell cell1 : phx_cell, Partition cell → connect_calls cell calls = some cell1 →
      Partition cell1 := by
  induction calls with
  | nil =>
    intro cell cell1 hp h
    simp [connect_calls] at h
    subst h; exact hp
  | cons c rest ih =>
    intro cell cell1 hp h
    obtain ⟨a, b⟩ := c
    simp only [connect_calls] at h
    cases hc : connect cell a.pin a.inst b.pin b.inst with
    | returned c1 out =>
      rw [hc] at h
      exact ih c1 cell1 (partition_step cell c1 a b out hp hc) h
    | aborted c1 out =>
      rw [hc] at h
      cases h

theorem connect_same_net (cell : phx_cell) (a b : phx_terminal)
    (ha : a.pin ≠ none) (hb : b.pin ≠ none)
    (h1 : nets_containing cell a = 1) (h2 : nets_containing cell b = 1)
    (h3 : cell.nets.findIdx (net_has a) = cell.nets.findIdx (net_has b)) :
    connect cell a.pin a.inst b.pin b.inst = .returned cell "" := by
  rw [connect_eq _ _ _ _ _ ha hb]
  obtain ⟨ai, ap⟩ := a
  obtain ⟨bi, bp⟩ := b
  simp only at h1 h2 h3 ⊢
  simp [h1, h2, h3]

/-- After `connect` returns, both terminals are in one net each, and it is the
same net. -/
theorem connect_returned_same_net (cell cell1 : phx_cell) (a b : phx_terminal) (out : String)
    (h : connect cell a.pin a.inst b.pin b.inst = .returned cell1 out) :
    nets_containing cell1 a = 1 ∧ nets_containing cell1 b = 1
      ∧ cell1.nets.findIdx (net_has a) = cell1.nets.findIdx (net_has b) := by
  rcases connect_returned_cases cell cell1 a b out h with
    ⟨ha1, hb1, hf, rfl, _⟩ | ⟨ha0, hb0, rfl, _⟩ | ⟨ha1, hb0, rfl, _⟩ | ⟨ha0, hb1, rfl, _⟩
  · exact ⟨ha1, hb1, hf⟩
  · unfold nets_containing at *
    have hna : net_has a (new_net a b) = true := by
      simp [net_has, new_net, array_add, array_init]
    have hnb : net_has b (new_net a b) = true := by
      simp [net_has, new_net, array_add, array_init]
    refine ⟨?_, ?_, ?_⟩
    · simp only [List.countP_append, List.countP_cons, List.countP_nil, hna, ha0, if_true]
    · simp only [List.countP_append, List.countP_cons, List.countP_nil, hnb, hb0, if_true]
    · simp only
      rw [findIdx_append_singleton _ _ _ ha0 hna, findIdx_append_singleton _ _ _ hb0 hnb]
  · unfold nets_containing at *
    have hne : a ≠ b := by
      intro e; subst e; omega
    have hlt := findIdx_lt_of_countP_pos (net_has a) cell.nets (by omega)
    simp only
    refine ⟨?_, ?_, ?_⟩
    · rw [countP_add_ne a b hne]; exact ha1
    · exact countP_add_self b cell.nets _ hb0 hlt
    · rw [findIdx_add_ne a b hne, findIdx_add_self b cell.nets _ hb0 hlt]
  · unfold nets_containing at *
    have hne : b ≠ a := by
      intro e; subst e; omega
    have hlt := findIdx_lt_of_countP_pos (net_has b) cell.nets (by omega)
    simp only
    refine ⟨?_, ?_, ?_⟩
    · exact countP_add_self a cell.nets _ ha0 hlt
    · rw [countP_add_ne b a hne]; exact hb1
    · rw [findIdx_add_ne b a hne, findIdx_add_self a cell.nets _ ha0 hlt]

theorem mem_net_conns_add (c : phx_terminal) (l : List phx_net) :
    ∀ (i : Nat) (n : phx_net), n ∈ net_conns_add l i c →
      n ∈ l ∨ ∃ m ∈ l, n = { m with conns := array_add m.conns c } := by
  induction l with
  | nil => intro i n h; simp [net_conns_add] at h
  | cons x rest ih =>
    intro i n h
    cases i with
    | zero =>
      simp only [net_conns_add, List.mem_cons] at h
      rcases h with h | h
      · exact Or.inr ⟨x, List.mem_cons_self _ _, h⟩
      · exact Or.inl (List.mem_cons_of_mem _ h)
    | succ k =>
      simp only [net_conns_add, List.mem_cons] at h
      rcases h with h | h
      · exact Or.inl (h ▸ List.mem_cons_self _ _)
      · rcases ih k n h with h1 | ⟨m, hm, e⟩
        · exact Or.inl (List.mem_cons_of_mem _ h1)
        · exact Or.inr ⟨m, List.mem_cons_of_mem _ hm, e⟩

theorem nodup_net_conns_add (c : phx_terminal) (l : List phx_net) (i : Nat)
    (hl : ∀ n ∈ l, n.conns.Nodup) (h0 : l.countP (net_has c) = 0) :
    ∀ n ∈ net_conns_add l i c, n.conns.Nodup := by
  intro n hn
  rcases mem_net_conns_add c l i n hn with h | ⟨m, hm, rfl⟩
  · exact hl n h
  · have hc : c ∉ m.conns := by
      have := (List.countP_eq_zero.mp h0) m hm
      simpa [net_has] using this
    simp only [array_add]
    exact List.Nodup.append (hl m hm) (List.nodup_singleton c) (by simpa using hc)

theorem nodup_step (cell cell1 : phx_cell) (a b : phx_terminal) (out : String)
    (hd : NoDuplicates cell) (hab : a ≠ b)
    (h : connect cell a.pin a.inst b.pin b.inst = .returned cell1 out) :
    NoDuplicates cell1 := by
  rcases connect_returned_cases cell cell1 a b out h with
    ⟨_, _, _, rfl, _⟩ | ⟨_, _, rfl, _⟩ | ⟨_, hb0, rfl, _⟩ | ⟨ha0, _, rfl, _⟩
  · exact hd
  · intro n hn
    simp only [List.mem_append, List.mem_singleton] at hn
    rcases hn with hn | rfl
    · exact hd n hn
    · simp [new_net, array_add, array_init, hab]
  · exact nodup_net_conns_add b cell.nets _ hd hb0
  · exact nodup_net_conns_add a cell.nets _ hd ha0

theorem nodup_calls (calls : List (phx_terminal × phx_terminal)) :
    ∀ cell cell1 : phx_cell, NoDuplicates cell → (∀ c ∈ calls, c.1 ≠ c.2) →
      connect_calls cell calls = some cell1 → NoDuplicates cell1 := by
  induction calls with
  | nil =>
    intro cell cell1 hp _ h
    simp [connect_calls] at h
    subst h; exact hp
  | cons c rest ih =>
    intro cell cell1 hp hne h
    obtain ⟨a, b⟩ := c
    simp only [connect_calls] at h
    cases hc : connect cell a.pin a.inst b.pin b.inst with
    | returned c1 out =>
      rw [hc] at h
      have hab : a ≠ b := hne (a, b) (List.mem_cons_self _ _)
      exact ih c1 cell1 (nodup_step cell c1 a b out hp hab hc)
        (fun c hcm => hne c (List.mem_cons_of_mem _ hcm)) h
    | aborted c1 out =>
      rw [hc] at h
      cases h

theorem connect_append_at (cell : phx_cell) (a b : phx_terminal) (i : Nat) (N : phx_net)
    (ha : a.pin ≠ none) (hb : b.pin ≠ none) (hN : cell.nets[i]? = some N)
    (haN : a ∈ N.conns) (h1 : nets_containing cell a = 1) (h0 : nets_containing cell b = 0) :
    connect cell a.pin a.inst b.pin b.inst
      = .returned { cell with nets := net_conns_add cell.nets i b } "" := by
  have hf : cell.nets.findIdx (net_has a) = i :=
    findIdx_unique (net_has a) cell.nets i N (by unfold nets_containing at h1; omega) hN
      (by simpa [net_has] using haN)
  rw [connect_eq _ _ _ _ _ ha hb]
  obtain ⟨ai, ap⟩ := a
  obtain ⟨bi, bp⟩ := b
  simp only at h1 h0 hf ⊢
  simp [h1, h0, hf]

theorem connect_append_at_b (cell : phx_cell) (a b : phx_terminal) (i : Nat) (N : phx_net)
    (ha : a.pin ≠ none) (hb : b.pin ≠ none) (hN : cell.nets[i]? = some N)
    (hbN : b ∈ N.conns) (h1 : nets_containing cell b = 1) (h0 : nets_containing cell a = 0) :
    connect cell a.pin a.inst b.pin b.inst
      = .returned { cell with nets := net_conns_add cell.nets i a } "" := by
  have hf : cell.nets.findIdx (net_has b) = i :=
    findIdx_unique (net_has b) cell.nets i N (by unfold nets_containing at h1; omega) hN
      (by simpa [net_has] using hbN)
  rw [connect_eq _ _ _ _ _ ha hb]
  obtain ⟨ai, ap⟩ := a
  obtain ⟨bi, bp⟩ := b
  simp only at h1 h0 hf ⊢
  simp [h1, h0, hf]

theorem connect_fresh (cell : phx_cell) (a b : phx_terminal)
    (ha : a.pin ≠ none) (hb : b.pin ≠ none)
    (hna : ∀ net ∈ cell.nets, a ∉ net.conns) (hnb : ∀ net ∈ cell.nets, b ∉ net.conns) :
    connect cell a.pin a.inst b.pin b.inst
      = .returned
          { cell with nets := cell.nets ++ [⟨0, none, none, [a, b], 0⟩] }
          "creating new net\n" := by
  have h1 : nets_containing cell a = 0 := by
    simpa [nets_containing, net_has] using hna
  have h2 : nets_containing cell b = 0 := by
    simpa [nets_containing, net_has] using hnb
  rw [connect_eq _ _ _ _ _ ha hb]
  obtain ⟨ai, ap⟩ := a
  obtain ⟨bi, bp⟩ := b
  simp only at h1 h2 ⊢
  simp [h1, h2, new_net, array_add, array_init]

/-! ## Text -/

theorem foldl_append_init (l : List String) :
    ∀ init : String, l.foldl (fun r s => r ++ s) init = init ++ l.foldl (fun r s => r ++ s) "" := by
  induction l with
  | nil => intro init; simp
  | cons x rest ih =>
    intro init
    simp only [List.foldl_cons, String.empty_append]
    rw [ih (init ++ x), ih x, String.append_assoc]

theorem join_cons (x : String) (l : List String) :
    String.join (x :: l) = x ++ String.join l := by
  simp only [String.join, List.foldl_cons, String.empty_append]
  exact foldl_append_init l x

theorem dump_conns_eq (pin_name inst_name : Nat → String) (conns : List phx_terminal)
    (hp : ∀ t ∈ conns, t.pin ≠ none) :
    ∀ out : String, dump_conns pin_name inst_name conns out
      = some (out ++ String.join
          (conns.map (fun t => " " ++ terminal_text pin_name inst_name t))) := by
  induction conns with
  | nil => intro out; simp [dump_conns, String.join]
  | cons c rest ih =>
    intro out
    have hrest : ∀ t ∈ rest, t.pin ≠ none := fun t ht => hp t (List.mem_cons_of_mem _ ht)
    have hc := hp c (List.mem_cons_self _ _)
    obtain ⟨ci, cp⟩ := c
    cases cp with
    | none => exact absurd rfl hc
    | some p =>
      cases ci with
      | none =>
        have e : terminal_text pin_name inst_name ⟨none, some p⟩ = pin_name p := rfl
        simp only [dump_conns, List.map_cons, join_cons, e]
        rw [ih hrest, String.append_assoc]
      | some i =>
        have e : terminal_text pin_name inst_name ⟨some i, some p⟩
            = inst_name i ++ "." ++ pin_name p := rfl
        simp only [dump_conns, List.map_cons, join_cons, e]
        rw [ih hrest]
        simp only [String.append_assoc]

theorem dump_nets_eq (pin_name inst_name : Nat → String) (nets : List phx_net)
    (hp : ∀ net ∈ nets, ∀ t ∈ net.conns, t.pin ≠ none) :
    ∀ out : String, dump_nets pin_name inst_name nets out
      = some (out ++ String.join (nets.map (net_line pin_name inst_name))) := by
  induction nets with
  | nil => intro out; simp [dump_nets, String.join]
  | cons n rest ih =>
    intro out
    have hrest : ∀ net ∈ rest, ∀ t ∈ net.conns, t.pin ≠ none :=
      fun net hn => hp net (List.mem_cons_of_mem _ hn)
    have hn := hp n (List.mem_cons_self _ _)
    have hname : (match n.name with | some s => s | none => "<anon>") = n.name.getD "<anon>" := by
      cases n.name <;> rfl
    simp only [dump_nets, dump_conns_eq pin_name inst_name n.conns hn, hname, List.map_cons,
      join_cons, net_line]
    rw [ih hrest]
    simp only [String.append_assoc]

/-! ## The claims -/

/-- C1: `connect` preserves the net partition.  If each terminal of a cell is
in at most one net and `connect(cell, a, b)` returns, each terminal is in at
most one net of the resulting cell; hence after any sequence of returning
`connect` calls that starts from a cell with no nets, each terminal is in at
most one net. -/
theorem connect_preserves_partition :
    (∀ (cell cell1 : phx_cell) (a b : phx_terminal) (out : String),
      Partition cell → connect cell a.pin a.inst b.pin b.inst = .returned cell1 out →
      Partition cell1)
    ∧ (∀ (cell cell1 : phx_cell) (calls : List (phx_terminal × phx_terminal)),
      cell.nets = [] → connect_calls cell calls = some cell1 → Partition cell1) := by
  refine ⟨fun cell cell1 a b out hp h => partition_step cell cell1 a b out hp h, ?_⟩
  intro cell cell1 calls h0 h
  refine partition_calls calls cell cell1 ?_ h
  intro t
  simp [nets_containing, h0]

/-- Witness of C1 on two concrete cells: one call on a cell that has a net, and
a sequence of three calls on a cell with no nets. -/
theorem connect_preserves_partition_witness :
    Partition ⟨0, [⟨0, none, none, [⟨none, some 1⟩, ⟨some 7, some 2⟩, ⟨some 8, some 2⟩], 0⟩]⟩
    ∧ Partition ⟨0, [⟨0, none, none, [⟨none, some 1⟩, ⟨some 7, some 2⟩, ⟨some 8, some 2⟩], 0⟩,
        ⟨0, none, none, [⟨none, some 3⟩, ⟨some 7, some 3⟩], 0⟩]⟩ :=
  ⟨connect_preserves_partition.1
      ⟨0, [⟨0, none, none, [⟨none, some 1⟩, ⟨some 7, some 2⟩], 0⟩]⟩ _
      ⟨some 7, some 2⟩ ⟨some 8, some 2⟩ ""
      (fun t => by simp only [nets_containing, List.countP_cons, List.countP_nil]; split <;> omega)
      (by decide),
   connect_preserves_partition.2 ⟨0, []⟩ _
      [(⟨none, some 1⟩, ⟨some 7, some 2⟩), (⟨none, some 3⟩, ⟨some 7, some 3⟩),
       (⟨none, some 1⟩, ⟨some 8, some 2⟩)]
      rfl (by decide)⟩

/-- C2 (transitive merge), evaluated on the code: with four pairwise distinct
terminals A, B, C, D, `connect(A, B)` and `connect(C, D)` on a cell with no nets
return and leave the nets [A, B] and [C, D]; `connect(B, C)` then aborts at
`assert(0 && "not implemented")` with the two nets still apart, so the sequence
of three calls does not return a cell. -/
theorem connect_merge_not_implemented :
    connect_calls ⟨0, []⟩
        [(⟨some 10, some 1⟩, ⟨some 11, some 1⟩), (⟨some 12, some 1⟩, ⟨some 13, some 1⟩)]
      = some ⟨0, [new_net ⟨some 10, some 1⟩ ⟨some 11, some 1⟩,
                  new_net ⟨some 12, some 1⟩ ⟨some 13, some 1⟩]⟩
    ∧ connect ⟨0, [new_net ⟨some 10, some 1⟩ ⟨some 11, some 1⟩,
                   new_net ⟨some 12, some 1⟩ ⟨some 13, some 1⟩]⟩
        (some 1) (some 11) (some 1) (some 12)
      = .aborted ⟨0, [new_net ⟨some 10, some 1⟩ ⟨some 11, some 1⟩,
                      new_net ⟨some 12, some 1⟩ ⟨some 13, some 1⟩]⟩ ""
    ∧ connect_calls ⟨0, []⟩
        [(⟨some 10, some 1⟩, ⟨some 11, some 1⟩), (⟨some 12, some 1⟩, ⟨some 13, some 1⟩),
         (⟨some 11, some 1⟩, ⟨some 12, some 1⟩)] = none := by
  decide

/-- C3: `connect` is idempotent.  If `connect(cell, a, b)` returns, the same
call on the resulting cell returns too, writes nothing, and leaves the cell, and
so its nets, their order and their terminal lists, as it was. -/
theorem connect_idempotent (cell cell1 : phx_cell) (pin_a inst_a pin_b inst_b : Ptr)
    (out : String) (h : connect cell pin_a inst_a pin_b inst_b = .returned cell1 out) :
    connect cell1 pin_a inst_a pin_b inst_b = .returned cell1 "" := by
  obtain ⟨ha, hb⟩ := connect_returned_pins _ _ _ _ _ _ _ h
  obtain ⟨h1, h2, h3⟩ :=
    connect_returned_same_net cell cell1 ⟨inst_a, pin_a⟩ ⟨inst_b, pin_b⟩ out h
  exact connect_same_net cell1 ⟨inst_a, pin_a⟩ ⟨inst_b, pin_b⟩ ha hb h1 h2 h3

/-- Witness of C3: the second of two equal calls on a cell with one net. -/
theorem connect_idempotent_witness :
    connect ⟨0, [⟨0, none, none, [⟨none, some 1⟩, ⟨some 7, some 2⟩, ⟨some 8, some 2⟩], 0⟩]⟩
        (some 2) (some 7) (some 2) (some 8)
      = .returned
          ⟨0, [⟨0, none, none, [⟨none, some 1⟩, ⟨some 7, some 2⟩, ⟨some 8, some 2⟩], 0⟩]⟩ "" :=
  connect_idempotent ⟨0, [⟨0, none, none, [⟨none, some 1⟩, ⟨some 7, some 2⟩], 0⟩]⟩ _
    (some 2) (some 7) (some 2) (some 8) "" (by decide)

/-- C4 as stated fails: connecting a terminal that is in no net to itself
returns and leaves a net that lists the terminal twice. -/
theorem connect_self_duplicates :
    connect_calls ⟨0, []⟩ [(⟨some 7, some 1⟩, ⟨some 7, some 1⟩)]
      = some ⟨0, [⟨0, none, none, [⟨some 7, some 1⟩, ⟨some 7, some 1⟩], 0⟩]⟩
    ∧ ¬ NoDuplicates ⟨0, [⟨0, none, none, [⟨some 7, some 1⟩, ⟨some 7, some 1⟩], 0⟩]⟩ := by
  refine ⟨by decide, ?_⟩
  intro h
  have := h _ (List.mem_singleton.mpr rfl)
  simp at this

/-- C4, amended: after any sequence of returning `connect` calls, none of which
connects a terminal to itself, starting from a cell with no nets, no net of the
cell contains two terminals that are equal as (instance, pin) pairs. -/
theorem connect_no_duplicates (cell cell1 : phx_cell)
    (calls : List (phx_terminal × phx_terminal))
    (h0 : cell.nets = []) (hne : ∀ c ∈ calls, c.1 ≠ c.2)
    (h : connect_calls cell calls = some cell1) : NoDuplicates cell1 := by
  refine nodup_calls calls cell cell1 ?_ hne h
  intro n hn
  rw [h0] at hn
  cases hn

/-- Witness of the amended C4: three calls, the last adding to the first net. -/
theorem connect_no_duplicates_witness :
    NoDuplicates
      ⟨0, [⟨0, none, none, [⟨none, some 1⟩, ⟨some 7, some 2⟩, ⟨some 8, some 2⟩], 0⟩,
           ⟨0, none, none, [⟨none, some 3⟩, ⟨some 7, some 3⟩], 0⟩]⟩ :=
  connect_no_duplicates ⟨0, []⟩ _
    [(⟨none, some 1⟩, ⟨some 7, some 2⟩), (⟨none, some 3⟩, ⟨some 7, some 3⟩),
     (⟨none, some 1⟩, ⟨some 8, some 2⟩)]
    rfl (by decide) (by decide)

/-- C5: postcondition of `connect`.  Whenever `connect(cell, a, b)` returns,
the resulting cell has a net on which `net_connects_to` is true for `a` and for
`b`. -/
theorem connect_postcondition (cell cell1 : phx_cell) (pin_a inst_a pin_b inst_b : Ptr)
    (out : String) (h : connect cell pin_a inst_a pin_b inst_b = .returned cell1 out) :
    ∃ net ∈ cell1.nets,
      net_connects_to net pin_a inst_a = some true
        ∧ net_connects_to net pin_b inst_b = some true := by
  obtain ⟨ha, hb⟩ := connect_returned_pins _ _ _ _ _ _ _ h
  obtain ⟨h1, h2, h3⟩ :=
    connect_returned_same_net cell cell1 ⟨inst_a, pin_a⟩ ⟨inst_b, pin_b⟩ out h
  unfold nets_containing at h1 h2
  obtain ⟨n, hn, hpa⟩ := findIdx_spec (net_has ⟨inst_a, pin_a⟩) cell1.nets (by omega)
  obtain ⟨m, hm, hpb⟩ := findIdx_spec (net_has ⟨inst_b, pin_b⟩) cell1.nets (by omega)
  rw [← h3, hn] at hm
  injection hm with hm
  subst hm
  refine ⟨n, List.getElem?_mem hn, ?_, ?_⟩
  · rw [net_connects_to_eq _ _ _ ha, hpa]
  · rw [net_connects_to_eq _ _ _ hb, hpb]

/-- Witness of C5: a call that appends to an existing net. -/
theorem connect_postcondition_witness :
    ∃ net ∈ [(⟨0, none, none, [⟨none, some 1⟩, ⟨some 7, some 2⟩, ⟨some 8, some 2⟩], 0⟩ : phx_net)],
      net_connects_to net (some 2) (some 7) = some true
        ∧ net_connects_to net (some 2) (some 8) = some true :=
  connect_postcondition ⟨0, [⟨0, none, none, [⟨none, some 1⟩, ⟨some 7, some 2⟩], 0⟩]⟩
    ⟨0, [⟨0, none, none, [⟨none, some 1⟩, ⟨some 7, some 2⟩, ⟨some 8, some 2⟩], 0⟩]⟩
    (some 2) (some 7) (some 2) (some 8) "" (by decide)

/-- C6: the new-net case.  When neither terminal `a` nor terminal `b` is in any
net of the cell, `connect(cell, a, b)` returns the cell with its old nets,
unchanged and in the same order, followed by one new net whose terminal list is
`[a, b]` (and whose other fields are zero). -/
theorem connect_new_net (cell : phx_cell) (a b : phx_terminal)
    (ha : a.pin ≠ none) (hb : b.pin ≠ none)
    (hna : ∀ net ∈ cell.nets, a ∉ net.conns) (hnb : ∀ net ∈ cell.nets, b ∉ net.conns) :
    connect cell a.pin a.inst b.pin b.inst
      = .returned
          { cell with nets := cell.nets ++ [⟨0, none, none, [a, b], 0⟩] }
          "creating new net\n" :=
  connect_fresh cell a b ha hb hna hnb

/-- Witness of C6: two fresh terminals on a cell that has one net. -/
theorem connect_new_net_witness :
    connect ⟨0, [⟨0, none, none, [⟨none, some 1⟩, ⟨some 7, some 2⟩], 0⟩]⟩
        (some 3) none (some 3) (some 7)
      = .returned
          ⟨0, [⟨0, none, none, [⟨none, some 1⟩, ⟨some 7, some 2⟩], 0⟩,
               ⟨0, none, none, [⟨none, some 3⟩, ⟨some 7, some 3⟩], 0⟩]⟩
          "creating new net\n" :=
  connect_new_net ⟨0, [⟨0, none, none, [⟨none, some 1⟩, ⟨some 7, some 2⟩], 0⟩]⟩
    ⟨none, some 3⟩ ⟨some 7, some 3⟩ (by decide) (by decide) (by decide) (by decide)

/-- C7: the append case.  When exactly one of the terminals `a`, `b` is in a
net of the cell, and in exactly one net `N` (at position `i`), `connect(cell, a,
b)` returns a cell with as many nets as before, every net at a position other
than `i` as it was, and at position `i` the net `N` with the missing terminal
added at the end of its terminal list. -/
theorem connect_append (cell : phx_cell) (a b : phx_terminal) (i : Nat) (N : phx_net)
    (ha : a.pin ≠ none) (hb : b.pin ≠ none) (hN : cell.nets[i]? = some N)
    (h : (a ∈ N.conns ∧ nets_containing cell a = 1 ∧ nets_containing cell b = 0)
      ∨ (b ∈ N.conns ∧ nets_containing cell b = 1 ∧ nets_containing cell a = 0)) :
    ∃ cell1 out, connect cell a.pin a.inst b.pin b.inst = .returned cell1 out
      ∧ cell1.nets.length = cell.nets.length
      ∧ (∀ j, j ≠ i → cell1.nets[j]? = cell.nets[j]?)
      ∧ cell1.nets[i]? = some { N with conns := N.conns ++ [if a ∈ N.conns then b else a] } := by
  rcases h with ⟨haN, h1, h0⟩ | ⟨hbN, h1, h0⟩
  · refine ⟨_, _, connect_append_at cell a b i N ha hb hN haN h1 h0, ?_, ?_, ?_⟩
    · exact net_conns_add_length _ _ _
    · intro j hj
      exact net_conns_add_getElem?_ne _ _ _ _ hj
    · simp only [haN, if_true]
      exact net_conns_add_getElem?_self _ _ _ _ hN
  · have haN : a ∉ N.conns := by
      have := (List.countP_eq_zero.mp h0) N (List.getElem?_mem hN)
      simpa [net_has] using this
    refine ⟨_, _, connect_append_at_b cell a b i N ha hb hN hbN h1 h0, ?_, ?_, ?_⟩
    · exact net_conns_add_length _ _ _
    · intro j hj
      exact net_conns_add_getElem?_ne _ _ _ _ hj
    · simp only [haN, if_false]
      exact net_conns_add_getElem?_self _ _ _ _ hN

/-- Witness of C7: of two nets, the second holds `b`, and `a` is in neither. -/
theorem connect_append_witness :
    ∃ cell1 out,
      connect ⟨0, [⟨0, none, none, [⟨none, some 1⟩, ⟨some 7, some 2⟩], 0⟩,
                   ⟨0, none, some "n1", [⟨none, some 3⟩, ⟨some 7, some 3⟩], 0⟩]⟩
          (some 3) (some 8) (some 3) (some 7) = .returned cell1 out
      ∧ cell1.nets.length = 2
      ∧ (∀ j, j ≠ 1 → cell1.nets[j]?
          = [(⟨0, none, none, [⟨none, some 1⟩, ⟨some 7, some 2⟩], 0⟩ : phx_net),
             ⟨0, none, some "n1", [⟨none, some 3⟩, ⟨some 7, some 3⟩], 0⟩][j]?)
      ∧ cell1.nets[1]?
          = some ⟨0, none, some "n1", [⟨none, some 3⟩, ⟨some 7, some 3⟩, ⟨some 8, some 3⟩], 0⟩ :=
  connect_append
    ⟨0, [⟨0, none, none, [⟨none, some 1⟩, ⟨some 7, some 2⟩], 0⟩,
         ⟨0, none, some "n1", [⟨none, some 3⟩, ⟨some 7, some 3⟩], 0⟩]⟩
    ⟨some 8, some 3⟩ ⟨some 7, some 3⟩ 1
    ⟨0, none, some "n1", [⟨none, some 3⟩, ⟨some 7, some 3⟩], 0⟩
    (by decide) (by decide) rfl (Or.inr ⟨by decide, by decide, by decide⟩)

/-- C8 (exposure flag), evaluated on the code: connecting a boundary pin (a
terminal with no instance) to an instance pin, on a cell with no nets, returns
and leaves one net that holds the boundary terminal and has `is_exposed = 0`.
`connect` allocates the net zeroed and never writes the flag, so the flag is
not true although a terminal of the net has no instance. -/
theorem connect_exposed_not_set :
    connect_calls ⟨0, []⟩ [(⟨none, some 1⟩, ⟨some 7, some 2⟩)]
      = some ⟨0, [⟨0, none, none, [⟨none, some 1⟩, ⟨some 7, some 2⟩], 0⟩]⟩
    ∧ (⟨0, none, none, [⟨none, some 1⟩, ⟨some 7, some 2⟩], 0⟩ : phx_net).is_exposed = 0
    ∧ (∃ t ∈ (⟨0, none, none, [⟨none, some 1⟩, ⟨some 7, some 2⟩], 0⟩ : phx_net).conns,
        t.inst = none)
    ∧ ¬ ((⟨0, none, none, [⟨none, some 1⟩, ⟨some 7, some 2⟩], 0⟩ : phx_net).is_exposed ≠ 0
          ↔ ∃ t ∈ (⟨0, none, none, [⟨none, some 1⟩, ⟨some 7, some 2⟩], 0⟩ : phx_net).conns,
              t.inst = none) := by
  refine ⟨by decide, rfl, ⟨⟨none, some 1⟩, by simp, rfl⟩, ?_⟩
  simp

/-- C9: the net listing format.  For a cell whose terminals all have a pin,
`dump_cell_nets` returns having written exactly the net listing: for each net in
net-list order one line, "net ", the net's name or "<anon>", " {", then for each
terminal in terminal order " " and "instance.pin" or the bare pin name, then
" }" and a newline. -/
theorem dump_cell_nets_format (pin_name inst_name : Nat → String) (cell : phx_cell)
    (hp : ∀ net ∈ cell.nets, ∀ t ∈ net.conns, t.pin ≠ none) :
    dump_cell_nets pin_name inst_name cell = some (net_listing pin_name inst_name cell) := by
  unfold dump_cell_nets net_listing
  rw [dump_nets_eq pin_name inst_name cell.nets hp, String.empty_append]

/-- Witness of C9: an anonymous net through a boundary pin and a named net
between two instance pins, with the text written for them. -/
theorem dump_cell_nets_format_witness :
    dump_cell_nets (fun p => if p = 1 then "VDD" else "A") (fun i => if i = 7 then "I0" else "I1")
        ⟨0, [⟨0, none, none, [⟨none, some 1⟩, ⟨some 7, some 1⟩], 0⟩,
             ⟨0, none, some "n1", [⟨some 7, some 2⟩, ⟨some 8, some 2⟩], 0⟩]⟩
      = some (net_listing (fun p => if p = 1 then "VDD" else "A")
          (fun i => if i = 7 then "I0" else "I1")
          ⟨0, [⟨0, none, none, [⟨none, some 1⟩, ⟨some 7, some 1⟩], 0⟩,
               ⟨0, none, some "n1", [⟨some 7, some 2⟩, ⟨some 8, some 2⟩], 0⟩]⟩)
    ∧ net_listing (fun p => if p = 1 then "VDD" else "A") (fun i => if i = 7 then "I0" else "I1")
        ⟨0, [⟨0, none, none, [⟨none, some 1⟩, ⟨some 7, some 1⟩], 0⟩,
             ⟨0, none, some "n1", [⟨some 7, some 2⟩, ⟨some 8, some 2⟩], 0⟩]⟩
      = "net <anon> \x7b VDD I0.VDD \x7d\nnet n1 \x7b I0.A I1.A \x7d\n" :=
  ⟨dump_cell_nets_format _ _ _ (by decide), by decide⟩

/-- C10: failure condition and atomicity of `connect`.  On non-null pins,
`connect(cell, a, b)` aborts if and only if `a` is in more than one net, or `b`
is in more than one net, or `a` and `b` are in two different nets; and whenever
it aborts, the cell at the abort is the cell it was called on and nothing has
been written. -/
theorem connect_aborts_iff (cell : phx_cell) (a b : phx_terminal)
    (ha : a.pin ≠ none) (hb : b.pin ≠ none) :
    ((∃ cell1 out, connect cell a.pin a.inst b.pin b.inst = .aborted cell1 out)
      ↔ (1 < nets_containing cell a ∨ 1 < nets_containing cell b
          ∨ ∃ (i j : Nat) (net_a net_b : phx_net), i ≠ j ∧ cell.nets[i]? = some net_a ∧ cell.nets[j]? = some net_b
              ∧ a ∈ net_a.conns ∧ b ∈ net_b.conns))
    ∧ (∀ cell1 out, connect cell a.pin a.inst b.pin b.inst = .aborted cell1 out →
        cell1 = cell ∧ out = "") := by
  have hEq := connect_eq cell a.pin a.inst b.pin b.inst ha hb
  obtain ⟨ai, ap⟩ := a
  obtain ⟨bi, bp⟩ := b
  simp only at hEq ha hb ⊢
  constructor
  · constructor
    · rintro ⟨cell1, out, h⟩
      rw [hEq] at h
      by_cases h1 : 1 < nets_containing cell ⟨ai, ap⟩
      · exact Or.inl h1
      by_cases h2 : 1 < nets_containing cell ⟨bi, bp⟩
      · exact Or.inr (Or.inl h2)
      refine Or.inr (Or.inr ?_)
      split_ifs at h with h3 h4 h5 h6 h7
      · exact absurd h3 (by simp [h1, h2])
      · unfold nets_containing at *
        obtain ⟨n, hn, hpa⟩ := findIdx_spec (net_has ⟨ai, ap⟩) cell.nets (by omega)
        obtain ⟨m, hm, hpb⟩ := findIdx_spec (net_has ⟨bi, bp⟩) cell.nets (by omega)
        exact ⟨_, _, n, m, h7, hn, hm, by simpa [net_has] using hpa, by simpa [net_has] using hpb⟩
    · intro h
      rcases h with h1 | h1 | ⟨i, j, n, m, hij, hn, hm, han, hbm⟩
      · exact ⟨cell, "", by rw [hEq]; simp [h1]⟩
      · exact ⟨cell, "", by rw [hEq]; simp [h1]⟩
      · by_cases h1 : 1 < nets_containing cell ⟨ai, ap⟩ ∨ 1 < nets_containing cell ⟨bi, bp⟩
        · exact ⟨cell, "", by rw [hEq]; simp [h1]⟩
        · have hPn : net_has ⟨ai, ap⟩ n = true := by simpa [net_has] using han
          have hQm : net_has ⟨bi, bp⟩ m = true := by simpa [net_has] using hbm
          have hca : 0 < nets_containing cell ⟨ai, ap⟩ :=
            List.countP_pos_iff.mpr ⟨n, List.getElem?_mem hn, hPn⟩
          have hcb : 0 < nets_containing cell ⟨bi, bp⟩ :=
            List.countP_pos_iff.mpr ⟨m, List.getElem?_mem hm, hQm⟩
          have hfa := findIdx_unique (net_has ⟨ai, ap⟩) cell.nets i n
            (by unfold nets_containing at h1; omega) hn hPn
          have hfb := findIdx_unique (net_has ⟨bi, bp⟩) cell.nets j m
            (by unfold nets_containing at h1; omega) hm hQm
          refine ⟨cell, "", ?_⟩
          rw [hEq, hfa, hfb]
          have e1 : nets_containing cell ⟨ai, ap⟩ ≠ 0 := by omega
          have e2 : nets_containing cell ⟨bi, bp⟩ ≠ 0 := by omega
          simp [h1, e1, e2, hij]
  · intro cell1 out h
    rw [hEq] at h
    split_ifs at h <;> injection h with e1 e2 <;> exact ⟨e1.symm, e2.symm⟩

/-- Witness of C10: two terminals that sit in two different nets. -/
theorem connect_aborts_iff_witness :
    ((∃ cell1 out,
        connect ⟨0, [⟨0, none, none, [⟨some 10, some 1⟩, ⟨some 11, some 1⟩], 0⟩,
                     ⟨0, none, none, [⟨some 12, some 1⟩, ⟨some 13, some 1⟩], 0⟩]⟩
          (some 1) (some 11) (some 1) (some 12) = .aborted cell1 out)
      ↔ (1 < nets_containing
              ⟨0, [⟨0, none, none, [⟨some 10, some 1⟩, ⟨some 11, some 1⟩], 0⟩,
                   ⟨0, none, none, [⟨some 12, some 1⟩, ⟨some 13, some 1⟩], 0⟩]⟩
              ⟨some 11, some 1⟩
          ∨ 1 < nets_containing
              ⟨0, [⟨0, none, none, [⟨some 10, some 1⟩, ⟨some 11, some 1⟩], 0⟩,
                   ⟨0, none, none, [⟨some 12, some 1⟩, ⟨some 13, some 1⟩], 0⟩]⟩
              ⟨some 12, some 1⟩
          ∨ ∃ (i j : Nat) (net_a net_b : phx_net), i ≠ j
              ∧ [(⟨0, none, none, [⟨some 10, some 1⟩, ⟨some 11, some 1⟩], 0⟩ : phx_net),
                  ⟨0, none, none, [⟨some 12, some 1⟩, ⟨some 13, some 1⟩], 0⟩][i]? = some net_a
              ∧ [(⟨0, none, none, [⟨some 10, some 1⟩, ⟨some 11, some 1⟩], 0⟩ : phx_net),
                  ⟨0, none, none, [⟨some 12, some 1⟩, ⟨some 13, some 1⟩], 0⟩][j]? = some net_b
              ∧ (⟨some 11, some 1⟩ : phx_terminal) ∈ net_a.conns
              ∧ (⟨some 12, some 1⟩ : phx_terminal) ∈ net_b.conns))
    ∧ (∀ cell1 out,
        connect ⟨0, [⟨0, none, none, [⟨some 10, some 1⟩, ⟨some 11, some 1⟩], 0⟩,
                     ⟨0, none, none, [⟨some 12, some 1⟩, ⟨some 13, some 1⟩], 0⟩]⟩
          (some 1) (some 11) (some 1) (some 12) = .aborted cell1 out →
        cell1 = ⟨0, [⟨0, none, none, [⟨some 10, some 1⟩, ⟨some 11, some 1⟩], 0⟩,
                     ⟨0, none, none, [⟨some 12, some 1⟩, ⟨some 13, some 1⟩], 0⟩]⟩
          ∧ out = "") :=
  connect_aborts_iff
    ⟨0, [⟨0, none, none, [⟨some 10, some 1⟩, ⟨some 11, some 1⟩], 0⟩,
         ⟨0, none, none, [⟨some 12, some 1⟩, ⟨some 13, some 1⟩], 0⟩]⟩
    ⟨some 11, some 1⟩ ⟨some 12, some 1⟩ (by decide) (by decide)

/-! ## The wiring of `main` -/

/-- The cell that the thirteen `connect` calls of `main` leave, call by call
evaluated on pins and instances that are pairwise distinct. -/
theorem main_connects_eq (cell_find_pin : Nat → String → Ptr) (cell_p AN2M0R : Nat)
    (i0 i1 i2 : Ptr) (cell : phx_cell)
    (hpin : ∀ c name, cell_find_pin c name ≠ none)
    (hinj : ∀ c1 n1 c2 n2, cell_find_pin c1 n1 = cell_find_pin c2 n2 → c1 = c2 ∧ n1 = n2)
    (hi0 : i0 ≠ none) (hi1 : i1 ≠ none) (hi2 : i2 ≠ none)
    (h01 : i0 ≠ i1) (h02 : i0 ≠ i2) (h12 : i1 ≠ i2) (hnets : cell.nets = []) :
    main_connects cell_find_pin cell_p AN2M0R i0 i1 i2 cell
      = some
        { cell with
          nets :=
            [ ⟨0, none, none,
                [⟨none, cell_find_pin cell_p "VDD"⟩, ⟨i0, cell_find_pin AN2M0R "VDD"⟩,
                 ⟨i1, cell_find_pin AN2M0R "VDD"⟩, ⟨i2, cell_find_pin AN2M0R "VDD"⟩], 0⟩,
              ⟨0, none, none,
                [⟨none, cell_find_pin cell_p "VSS"⟩, ⟨i0, cell_find_pin AN2M0R "VSS"⟩,
                 ⟨i1, cell_find_pin AN2M0R "VSS"⟩, ⟨i2, cell_find_pin AN2M0R "VSS"⟩], 0⟩,
              ⟨0, none, none,
                [⟨none, cell_find_pin cell_p "A"⟩, ⟨i0, cell_find_pin AN2M0R "A"⟩], 0⟩,
              ⟨0, none, none,
                [⟨none, cell_find_pin cell_p "B"⟩, ⟨i0, cell_find_pin AN2M0R "B"⟩], 0⟩,
              ⟨0, none, none,
                [⟨none, cell_find_pin cell_p "C"⟩, ⟨i1, cell_find_pin AN2M0R "A"⟩], 0⟩,
              ⟨0, none, none,
                [⟨none, cell_find_pin cell_p "D"⟩, ⟨i1, cell_find_pin AN2M0R "B"⟩], 0⟩,
              ⟨0, none, none,
                [⟨none, cell_find_pin cell_p "Z"⟩, ⟨i2, cell_find_pin AN2M0R "Z"⟩], 0⟩,
              ⟨0, none, none,
                [⟨i0, cell_find_pin AN2M0R "Z"⟩, ⟨i2, cell_find_pin AN2M0R "A"⟩], 0⟩,
              ⟨0, none, none,
                [⟨i1, cell_find_pin AN2M0R "Z"⟩, ⟨i2, cell_find_pin AN2M0R "B"⟩], 0⟩ ] } := by
  have hiff : ∀ c1 n1 c2 n2, cell_find_pin c1 n1 = cell_find_pin c2 n2 ↔ (c1 = c2 ∧ n1 = n2) :=
    fun c1 n1 c2 n2 => ⟨hinj c1 n1 c2 n2, fun ⟨e1, e2⟩ => by rw [e1, e2]⟩
  obtain ⟨k0, rfl⟩ := Option.ne_none_iff_exists'.mp hi0
  obtain ⟨k1, rfl⟩ := Option.ne_none_iff_exists'.mp hi1
  obtain ⟨k2, rfl⟩ := Option.ne_none_iff_exists'.mp hi2
  have d01 : k0 ≠ k1 := fun e => h01 (by rw [e])
  have d02 : k0 ≠ k2 := fun e => h02 (by rw [e])
  have d12 : k1 ≠ k2 := fun e => h12 (by rw [e])
  obtain ⟨inv, nets⟩ := cell
  simp only at hnets
  subst hnets
  simp [main_connects, connect_calls, connect, connect_scan, net_connects_to,
    net_connects_to_loop, net_conns_add, array_add, array_init, new_net, hpin, hiff,
    d01, d02, d12, d01.symm, d02.symm, d12.symm]

theorem name_code_injective :
    ∀ l1 l2 : List Char, name_code l1 = name_code l2 → l1 = l2 := by
  intro l1
  induction l1 with
  | nil =>
    intro l2 h
    cases l2 with
    | nil => rfl
    | cons c rest => simp [name_code] at h
  | cons c rest ih =>
    intro l2 h
    cases l2 with
    | nil => simp [name_code] at h
    | cons d rest2 =>
      simp only [name_code, Nat.add_right_cancel_iff] at h
      obtain ⟨hc, hr⟩ := Nat.pair_eq_pair.mp h
      have hcd : c = d := by
        rw [← Char.ofNat_toNat c, ← Char.ofNat_toNat d, hc]
      rw [hcd, ih rest2 hr]

theorem pin_address_injective (c1 : Nat) (n1 : String) (c2 : Nat) (n2 : String)
    (h : pin_address c1 n1 = pin_address c2 n2) : c1 = c2 ∧ n1 = n2 := by
  simp only [pin_address, Option.some.injEq] at h
  obtain ⟨hc, hn⟩ := Nat.pair_eq_pair.mp h
  exact ⟨hc, String.ext (name_code_injective _ _ hn)⟩

/-- C11: the wiring performed by `main` never reaches the unimplemented merge
branch.  If `cell_find_pin` returns a pin, the same for the same (cell, name)
and distinct ones for distinct (cell, name) pairs, and I0, I1, I2 are three
distinct instances, the thirteen `connect` calls of `main` on the freshly
created cell (no nets) all return, and leave exactly 9 nets: the VDD net and the
VSS net, each of 4 terminals, the boundary pin and the pin of the three
instances, and seven nets of 2 terminals. -/
theorem main_connects_nets (cell_find_pin : Nat → String → Ptr) (cell_p AN2M0R : Nat)
    (i0 i1 i2 : Ptr) (cell : phx_cell)
    (hpin : ∀ c name, cell_find_pin c name ≠ none)
    (hinj : ∀ c1 n1 c2 n2, cell_find_pin c1 n1 = cell_find_pin c2 n2 → c1 = c2 ∧ n1 = n2)
    (hi0 : i0 ≠ none) (hi1 : i1 ≠ none) (hi2 : i2 ≠ none)
    (h01 : i0 ≠ i1) (h02 : i0 ≠ i2) (h12 : i1 ≠ i2) (hnets : cell.nets = []) :
    ∃ cell1, main_connects cell_find_pin cell_p AN2M0R i0 i1 i2 cell = some cell1
      ∧ cell1.nets.length = 9
      ∧ cell1.nets.countP (fun net => net.conns.length = 4) = 2
      ∧ cell1.nets.countP (fun net => net.conns.length = 2) = 7
      ∧ cell1.nets.map (fun net => net.conns)
        = [ [⟨none, cell_find_pin cell_p "VDD"⟩, ⟨i0, cell_find_pin AN2M0R "VDD"⟩,
             ⟨i1, cell_find_pin AN2M0R "VDD"⟩, ⟨i2, cell_find_pin AN2M0R "VDD"⟩],
            [⟨none, cell_find_pin cell_p "VSS"⟩, ⟨i0, cell_find_pin AN2M0R "VSS"⟩,
             ⟨i1, cell_find_pin AN2M0R "VSS"⟩, ⟨i2, cell_find_pin AN2M0R "VSS"⟩],
            [⟨none, cell_find_pin cell_p "A"⟩, ⟨i0, cell_find_pin AN2M0R "A"⟩],
            [⟨none, cell_find_pin cell_p "B"⟩, ⟨i0, cell_find_pin AN2M0R "B"⟩],
            [⟨none, cell_find_pin cell_p "C"⟩, ⟨i1, cell_find_pin AN2M0R "A"⟩],
            [⟨none, cell_find_pin cell_p "D"⟩, ⟨i1, cell_find_pin AN2M0R "B"⟩],
            [⟨none, cell_find_pin cell_p "Z"⟩, ⟨i2, cell_find_pin AN2M0R "Z"⟩],
            [⟨i0, cell_find_pin AN2M0R "Z"⟩, ⟨i2, cell_find_pin AN2M0R "A"⟩],
            [⟨i1, cell_find_pin AN2M0R "Z"⟩, ⟨i2, cell_find_pin AN2M0R "B"⟩] ] := by
  refine ⟨_, main_connects_eq cell_find_pin cell_p AN2M0R i0 i1 i2 cell hpin hinj
    hi0 hi1 hi2 h01 h02 h12 hnets, ?_, ?_, ?_, ?_⟩
  · rfl
  · simp [List.countP_cons]
  · simp [List.countP_cons]
  · rfl

/-- Witness of C11: the cells at addresses 1 and 2, the instances at 10, 11
and 12, pins at the addresses `pin_address` gives. -/
theorem main_connects_nets_witness :
    ∃ cell1, main_connects pin_address 1 2 (some 10) (some 11) (some 12) ⟨0, []⟩ = some cell1
      ∧ cell1.nets.length = 9
      ∧ cell1.nets.countP (fun net => net.conns.length = 4) = 2
      ∧ cell1.nets.countP (fun net => net.conns.length = 2) = 7
      ∧ cell1.nets.map (fun net => net.conns)
        = [ [⟨none, pin_address 1 "VDD"⟩, ⟨some 10, pin_address 2 "VDD"⟩,
             ⟨some 11, pin_address 2 "VDD"⟩, ⟨some 12, pin_address 2 "VDD"⟩],
            [⟨none, pin_address 1 "VSS"⟩, ⟨some 10, pin_address 2 "VSS"⟩,
             ⟨some 11, pin_address 2 "VSS"⟩, ⟨some 12, pin_address 2 "VSS"⟩],
            [⟨none, pin_address 1 "A"⟩, ⟨some 10, pin_address 2 "A"⟩],
            [⟨none, pin_address 1 "B"⟩, ⟨some 10, pin_address 2 "B"⟩],
            [⟨none, pin_address 1 "C"⟩, ⟨some 11, pin_address 2 "A"⟩],
            [⟨none, pin_address 1 "D"⟩, ⟨some 11, pin_address 2 "B"⟩],
            [⟨none, pin_address 1 "Z"⟩, ⟨some 12, pin_address 2 "Z"⟩],
            [⟨some 10, pin_address 2 "Z"⟩, ⟨some 12, pin_address 2 "A"⟩],
            [⟨some 11, pin_address 2 "Z"⟩, ⟨some 12, pin_address 2 "B"⟩] ] :=
  main_connects_nets pin_address 1 2 (some 10) (some 11) (some 12) ⟨0, []⟩
    (fun c name => by simp [pin_address]) pin_address_injective
    (by decide) (by decide) (by decide) (by decide) (by decide) (by decide) rfl

end Phalanx
